import Mathlib

set_option maxRecDepth 8192

/-!
Verification of the SCL continuous-integration check scripts.

This file shallowly embeds the three Python scripts of the repository
(`check_copyright_headers.py`, `check_header_guards.py`, `check_coverage.py`)
as executable Lean functions over lists of characters, and proves or refutes
the behavioural claims about them.

Modelling conventions:
- A text line is a `List Char` (as produced by Python `readlines`, but with
  the trailing newline dropped; every comparison the scripts perform either
  strips trailing whitespace or is a prefix match against a string that
  contains no newline, so this is observation-equivalent).
- A file is a `List (List Char)` of its lines.
- A Python function that can raise an exception (IndexError on an
  out-of-bounds access, ValueError from `float`) is modelled with `Option`:
  `none` means the call raises, `some r` means it returns `r`.
- `str.rstrip()` is modelled for the ASCII whitespace characters; `str.upper`
  for ASCII letters (all inputs the scripts build are ASCII).
- Python floats extracted from the coverage report are modelled as rationals:
  every value the extraction can produce is within 1/10 of distance at least
  1/10 from any other such value, while double rounding error is below 2^-40,
  so the `>` comparisons against the representable thresholds 95.0 and 80.0
  agree with the rational comparisons.
-/

namespace SCL

/-! ## Python string primitives -/

/-- ASCII whitespace characters, as stripped by Python `str.rstrip()`. -/
def isSpaceChar (c : Char) : Bool :=
  c = ' ' || c = '\t' || c = '\n' || c = '\r' || c = '\x0b' || c = '\x0c'

/-- Python `s.rstrip()`: remove trailing whitespace. -/
def pyRstrip (l : List Char) : List Char :=
  (l.reverse.dropWhile isSpaceChar).reverse

/-- Python `s.split('\n')`. -/
def splitNl : List Char → List (List Char)
  | [] => [[]]
  | c :: cs =>
    if c = '\n' then [] :: splitNl cs
    else
      match splitNl cs with
      | [] => [[c]]
      | t :: ts => (c :: t) :: ts

/-- Python `str.upper()` on an ASCII character. -/
def pyUpperChar (c : Char) : Char :=
  if 'a' ≤ c ∧ c ≤ 'z' then Char.ofNat (c.toNat - 32) else c

/-- Python `s.replace(a, b)` for single characters. -/
def replaceChar (a b : Char) (l : List Char) : List Char :=
  l.map (fun c => if c = a then b else c)

/-! ## check_copyright_headers.py -/

/-- The module-level `header` template string of `check_copyright_headers.py`. -/
def headerStr : String := "/* SCL --- Secure Computation Library
 * ---- THIS LINE IS IGNORED ----
 *
 * This program is free software: you can redistribute it and/or modify
 * it under the terms of the GNU Affero General Public License as published by
 * the Free Software Foundation, either version 3 of the License, or
 * (at your option) any later version.
 *
 * This program is distributed in the hope that it will be useful,
 * but WITHOUT ANY WARRANTY; without even the implied warranty of
 * MERCHANTABILITY or FITNESS FOR A PARTICULAR PURPOSE.  See the
 * GNU Affero General Public License for more details.
 *
 * You should have received a copy of the GNU Affero General Public License
 * along with this program.  If not, see <https://www.gnu.org/licenses/>.
 */
"

/-- The module-level `copyright_line` constant of `check_copyright_headers.py`. -/
def copyright_line : List Char := " * Copyright (C) 2023".toList

/-- Python expression `header.rstrip().split("\n")` computed by `check_file`. -/
def expected_header : List (List Char) := splitNl (pyRstrip headerStr.toList)

/-- The `for a, b in zip(expected_header, lines)` loop of `check_file`.
Returns the final value of `n` together with `good`; a `false` second
component corresponds to the `break`. -/
def cfLoop : Nat → List (List Char) → List (List Char) → Nat × Bool
  | n, a :: as, b :: bs =>
    if n = 1 then
      if copyright_line.isPrefixOf b then cfLoop (n + 1) as bs else (n, false)
    else
      if pyRstrip a = pyRstrip b then cfLoop (n + 1) as bs else (n, false)
  | n, _, _ => (n, true)

/-- Function `check_file` of `check_copyright_headers.py`, on the list of lines of the
candidate file.  `none` models the IndexError raised by `lines[n]` when the
zipped iteration ran out with every line matching. -/
def check_file (lines0 : List (List Char)) : Option Bool :=
  match cfLoop 0 expected_header (lines0.take (expected_header.length + 1)) with
  | (_, false) => some false
  | (n, true) =>
    match (lines0.take (expected_header.length + 1)).get? n with
    | none => none
    | some l => some (if pyRstrip l = [] then true else false)

/-- The `all_good` aggregation loop shared by both file-walking scripts:
run `check` on every file in order, AND the boolean results together;
an exception in any per-file check (`none`) aborts the whole run. -/
def aggAll {α : Type} (check : α → Option Bool) (files : List α) : Option Bool :=
  files.foldl
    (fun acc f =>
      match acc, check f with
      | some g, some r => some (g && r)
      | _, _ => none)
    (some true)

/-- Exit status `exit(0 if all_good else 1)` of `check_copyright_headers.py`, over the
walked list of candidate files. -/
def copyrightExit (files : List (List (List Char))) : Option Nat :=
  (aggAll check_file files).map (fun b => if b then 0 else 1)

/-! ## check_header_guards.py -/

/-- The `'#ifndef ' + expected_header_guard` comparison string. -/
def ifndefLine (sym : List Char) : List Char := "#ifndef ".toList ++ sym

/-- The `'#define ' + expected_header_guard` comparison string. -/
def defineLine (sym : List Char) : List Char := "#define ".toList ++ sym

/-- The `'#endif  // ' + expected_header_guard` comparison string
(two spaces before the comment). -/
def endifLine (sym : List Char) : List Char := "#endif  // ".toList ++ sym

/-- The `while i < len(lines) - 1` scan of `check_guards`: find the first line
(at an index `i` with `i + 1 < len(lines)`) whose rstripped content equals
`#ifndef SYM`; `some b` means the scan broke there with `opening_header = b`,
`none` means the loop ran out (the `else:` clause of the `while`). -/
def guardScan (sym : List Char) : List (List Char) → Option Bool
  | a :: b :: rest =>
    if pyRstrip a = ifndefLine sym then
      some (if pyRstrip b = defineLine sym then true else false)
    else guardScan sym (b :: rest)
  | _ => none

/-- Function `check_guards` of `check_header_guards.py`.  `none` models an IndexError
from `lines[-1]` on an empty list (in fact unreachable: the scan only breaks
when the file has at least two lines). -/
def check_guards (lines : List (List Char)) (sym : List Char) : Option Bool :=
  match guardScan sym lines with
  | none => some false
  | some opening =>
    match lines.getLast? with
    | none => none
    | some ll => some (opening && (if pyRstrip ll = endifLine sym then true else false))

/-- Derivation `full_name.replace('/', '_').replace('.', '_').upper()` in `check_dir`:
derive the expected guard symbol from the file path relative to the root. -/
def symOf (relpath : List Char) : List Char :=
  (replaceChar '.' '_' (replaceChar '/' '_' relpath)).map pyUpperChar

/-- Function `check_dir` of `check_header_guards.py`, over the walked list of
(file lines, derived guard symbol) pairs of one root directory. -/
def check_dir (files : List (List (List Char) × List Char)) : Option Bool :=
  aggAll (fun p => check_guards p.1 p.2) files

/-- Aggregation `all_good = check_dir('include') and check_dir('src')` and
`exit(0 if all_good else 1)` — note the Python `and` short-circuit: `src` is not walked when
`include` already failed. -/
def guardsExit (incl srcFiles : List (List (List Char) × List Char)) : Option Nat :=
  match check_dir incl with
  | none => none
  | some false => some 1
  | some true => (check_dir srcFiles).map (fun b => if b then 0 else 1)

/-! ## check_coverage.py -/

/-- Threshold `line_threshold = 95.0`. -/
def line_threshold : ℚ := 95

/-- Threshold `function_threshold = 80.0`. -/
def function_threshold : ℚ := 80

/-- Attempt of the sub-pattern `[0-9][0-9].[0-9]%` at the current position
(`.` matches any character). -/
def matchCore : List Char → Option (List Char)
  | b :: c :: x :: d :: e :: _ =>
    if b.isDigit && c.isDigit && d.isDigit && e = '%' then some [b, c, x, d, e]
    else none
  | _ => none

/-- Attempt of the full pattern `[0-9]?[0-9][0-9].[0-9]%` at the current
position, with the greedy-then-backtrack semantics of the optional piece. -/
def matchAt : List Char → Option (List Char)
  | [] => none
  | a :: rest =>
    if a.isDigit then
      match matchCore rest with
      | some m => some (a :: m)
      | none => matchCore (a :: rest)
    else matchCore (a :: rest)

/-- Expression `re.findall("[0-9]?[0-9][0-9].[0-9]%", line)[0]`: the leftmost match of
the percentage pattern, or `none` when `findall` returns the empty list and
the `[0]` access raises IndexError. -/
def findFirstMatch : List Char → Option (List Char)
  | [] => none
  | a :: rest =>
    match matchAt (a :: rest) with
    | some m => some m
    | none => findFirstMatch rest

/-- Numeric value of an ASCII digit. -/
def digitVal (c : Char) : ℚ := ((c.toNat - 48 : Nat) : ℚ)

/-- Value of a digit string read as an integer. -/
def digitsVal (l : List Char) : ℚ := l.foldl (fun acc c => acc * 10 + digitVal c) 0

/-- Python `float(m)` on the matched text with the trailing `%` removed.
The match shape is (optional digit) digit digit ANY digit; `float` succeeds
exactly when the ANY character makes a valid float literal: a digit (plain
integer), `.` (decimal point), `e`/`E` (exponent), or `_` (digit-group
separator).  Anything else raises ValueError, modelled as `none`. -/
def pyFloatOfMatch (v : List Char) : Option ℚ :=
  match v.reverse with
  | d :: x :: frontRev =>
    if x.isDigit then some (digitsVal (frontRev.reverse ++ [x, d]))
    else if x = '.' then some (digitsVal frontRev.reverse + digitVal d / 10)
    else if x = 'e' ∨ x = 'E' then some (digitsVal frontRev.reverse * 10 ^ (d.toNat - 48))
    else if x = '_' then some (digitsVal (frontRev.reverse ++ [d]))
    else none
  | _ => none

/-- Expression `float(re.findall("[0-9]?[0-9][0-9].[0-9]%", line)[0][:-1])`:
extract the percentage from one report line; `none` models an uncaught
IndexError (no match) or ValueError (unparsable match). -/
def extractPct (line : List Char) : Option ℚ :=
  (findFirstMatch line).bind (fun m => pyFloatOfMatch m.dropLast)

/-- The body of `check_coverage.py` on the split report:
`lines = summary[2]`, `functions = summary[3]`, extract both percentages and
compute `coverage_met = pl > line_threshold and pf > function_threshold`.
`none` models any uncaught exception on the way. -/
def coverageOf (lns fns : List Char) : Option Bool :=
  match extractPct lns, extractPct fns with
  | some pl, some pf =>
    some ((if line_threshold < pl then true else false) &&
          (if function_threshold < pf then true else false))
  | _, _ => none

def coverageRunLines (summary : List (List Char)) : Option Bool :=
  match summary.get? 2, summary.get? 3 with
  | some lns, some fns => coverageOf lns fns
  | _, _ => none

/-- Script `check_coverage.py` on the raw report text (`open(..).read().split('\n')`). -/
def coverageRun (text : List Char) : Option Bool :=
  coverageRunLines (splitNl text)

/-- Exit status `exit(0 if coverage_met else 1)` of `check_coverage.py`. -/
def coverageExitLines (summary : List (List Char)) : Option Nat :=
  (coverageRunLines summary).map (fun b => if b then 0 else 1)


/-! ## Predicates used to state the claims -/

/-- Comparison performed by the `check_file` loop at index `k`: the line at
index 1 is a prefix match against `copyright_line`, every other line is an
rstripped equality against the template line. -/
def lineMatches (k : Nat) (e b : List Char) : Bool :=
  if k = 1 then copyright_line.isPrefixOf b else decide (pyRstrip e = pyRstrip b)

/-- Helper for `headerMatches`, carrying the absolute line index. -/
def headerMatchesAux : Nat → List (List Char) → List (List Char) → Bool
  | _, [], _ => true
  | _, _ :: _, [] => true
  | k, e :: es, b :: bs => lineMatches k e b && headerMatchesAux (k + 1) es bs

/-- Every line the candidate file has matches the corresponding template
line (copyright line prefix-matched); lines beyond either list are not
constrained.  This is exactly the condition under which the `check_file`
loop never breaks. -/
def headerMatches (lines : List (List Char)) : Bool :=
  headerMatchesAux 0 expected_header lines

/-- A candidate file body whose sixteen leading lines are the template with
the copyright line replaced by `copyright_line ++ suffix`. -/
def headerFileLines (suffix : List Char) : List (List Char) :=
  expected_header.set 1 (copyright_line ++ suffix)

/-- Append the whitespace `ws` to the end of line `j` of a file. -/
def appendAt : List (List Char) → Nat → List Char → List (List Char)
  | [], _, _ => []
  | l :: ls, 0, ws => (l ++ ws) :: ls
  | l :: ls, Nat.succ j, ws => l :: appendAt ls j ws

/-- Modelled from the spec (claim C1 wording): the file CONTAINS, anywhere,
a line rstripping to `#ifndef SYM` immediately followed by a line rstripping
to `#define SYM`, and its last line rstrips to `#endif  // SYM`.  This is the
pass condition the claim asserts for `check_guards`; it is compared against
the implementation. -/
def guardSpecCond (lines : List (List Char)) (sym : List Char) : Prop :=
  (∃ i, i + 1 < lines.length ∧ pyRstrip (lines.getD i []) = ifndefLine sym ∧
    pyRstrip (lines.getD (i + 1) []) = defineLine sym) ∧
  ∃ ll, lines.getLast? = some ll ∧ pyRstrip ll = endifLine sym

/-! ## Lemmas about `pyRstrip` and prefix matching -/

theorem rstrip_append (l ws : List Char) (h : ∀ c ∈ ws, isSpaceChar c = true) :
    pyRstrip (l ++ ws) = pyRstrip l := by
  unfold pyRstrip
  rw [List.reverse_append, List.dropWhile_append_of_pos]
  intro a ha
  exact h a (List.mem_reverse.mp ha)

theorem rstrip_decomp (l : List Char) :
    ∃ w, (∀ c ∈ w, isSpaceChar c = true) ∧ l = pyRstrip l ++ w := by
  refine ⟨(l.reverse.takeWhile isSpaceChar).reverse, ?_, ?_⟩
  · intro c hc
    exact List.mem_takeWhile_imp (List.mem_reverse.mp hc)
  · conv_lhs => rw [← l.reverse_reverse,
      ← List.takeWhile_append_dropWhile isSpaceChar l.reverse]
    rw [List.reverse_append]
    rfl

theorem isPrefixOf_append_space (p q r w : List Char) (c : Char)
    (hp : p = q ++ [c]) (hc : isSpaceChar c = false)
    (hw : ∀ d ∈ w, isSpaceChar d = true) :
    p.isPrefixOf (r ++ w) = p.isPrefixOf r := by
  rw [Bool.eq_iff_iff, List.isPrefixOf_iff_prefix, List.isPrefixOf_iff_prefix]
  constructor
  · intro h
    rcases le_or_lt p.length r.length with hle | hlt
    · rw [ List.prefix_iff_eq_take] at h ⊢
      rwa [List.take_append_eq_append_take, Nat.sub_eq_zero_of_le hle,
        List.take_zero, List.append_nil] at h
    · exfalso
      have hlen : p.length ≤ r.length + w.length := by
        have := h.length_le
        simpa [List.length_append] using this
      have heq : p = r ++ w.take (p.length - r.length) := by
        rw [ List.prefix_iff_eq_take] at h
        rwa [List.take_append_eq_append_take,
          List.take_of_length_le (Nat.le_of_lt hlt)] at h
      set t := w.take (p.length - r.length) with ht
      have htne : t ≠ [] := by
        have h1 : 1 ≤ p.length - r.length := by omega
        have h2 : p.length - r.length ≤ w.length := by omega
        have : t.length = p.length - r.length := by
          rw [ht, List.length_take]
          omega
        intro hnil
        rw [hnil] at this
        simp at this
        omega
      obtain ⟨x, xs, hx⟩ := List.exists_cons_of_ne_nil (by
        intro hnil
        exact htne (by simpa using congrArg List.reverse hnil) : t.reverse ≠ [])
      have hrev : c :: q.reverse = t.reverse ++ r.reverse := by
        have := congrArg List.reverse (hp ▸ heq)
        simpa [List.reverse_append] using this
      rw [hx] at hrev
      have hcx : c = x := by
        simpa using congrArg (fun l => l.headI) hrev
      have hxw : x ∈ w := by
        have hxt : x ∈ t := List.mem_reverse.mp (hx ▸ List.mem_cons_self x xs)
        exact List.take_subset _ _ hxt
      have := hw x hxw
      rw [← hcx] at this
      rw [this] at hc
      exact Bool.true_eq_false.mp hc
  · intro h
    exact h.trans ( List.prefix_append r w)

theorem isPrefixOf_copyright_rstrip (b : List Char) :
    copyright_line.isPrefixOf b = copyright_line.isPrefixOf (pyRstrip b) := by
  obtain ⟨w, hw, hb⟩ := rstrip_decomp b
  conv_lhs => rw [hb]
  exact isPrefixOf_append_space _ (" * Copyright (C) 202".toList) _ w '3' rfl rfl hw

theorem isPrefixOf_copyright_congr (b1 b2 : List Char) (h : pyRstrip b1 = pyRstrip b2) :
    copyright_line.isPrefixOf b1 = copyright_line.isPrefixOf b2 := by
  rw [isPrefixOf_copyright_rstrip b1, isPrefixOf_copyright_rstrip b2, h]


/-! ## Whitespace-invariance of both checks (congruence modulo rstrip) -/

theorem cfLoop_congr : ∀ (es bs1 bs2 : List (List Char)) (n : Nat),
    bs1.map pyRstrip = bs2.map pyRstrip → cfLoop n es bs1 = cfLoop n es bs2 := by
  intro es
  induction es with
  | nil => intro bs1 bs2 n _; rfl
  | cons a as ih =>
    intro bs1 bs2 n hmap
    cases bs1 with
    | nil =>
      cases bs2 with
      | nil => rfl
      | cons b2 t2 => simp at hmap
    | cons b1 t1 =>
      cases bs2 with
      | nil => simp at hmap
      | cons b2 t2 =>
        simp only [List.map_cons, List.cons.injEq] at hmap
        obtain ⟨hhead, htail⟩ := hmap
        simp only [cfLoop]
        by_cases hn : n = 1
        · rw [if_pos hn, if_pos hn, isPrefixOf_copyright_congr b1 b2 hhead]
          by_cases hcp : copyright_line.isPrefixOf b2
          · rw [if_pos hcp, if_pos hcp]
            exact ih t1 t2 (n + 1) htail
          · rw [if_neg hcp, if_neg hcp]
        · rw [if_neg hn, if_neg hn, hhead]
          by_cases hab : pyRstrip a = pyRstrip b2
          · rw [if_pos hab, if_pos hab]
            exact ih t1 t2 (n + 1) htail
          · rw [if_neg hab, if_neg hab]

theorem check_file_congr (l1 l2 : List (List Char))
    (h : l1.map pyRstrip = l2.map pyRstrip) : check_file l1 = check_file l2 := by
  unfold check_file
  have htk : (l1.take (expected_header.length + 1)).map pyRstrip
      = (l2.take (expected_header.length + 1)).map pyRstrip := by
    rw [List.map_take, List.map_take, h]
  rw [cfLoop_congr expected_header _ _ 0 htk]
  cases hcf : cfLoop 0 expected_header (l2.take (expected_header.length + 1)) with
  | mk n g =>
    cases g with
    | false => rfl
    | true =>
      simp only []
      have hg : ((l1.take (expected_header.length + 1)).get? n).map pyRstrip
          = ((l2.take (expected_header.length + 1)).get? n).map pyRstrip := by
        rw [← List.get?_map, ← List.get?_map, htk]
      cases h1 : (l1.take (expected_header.length + 1)).get? n with
      | none =>
        cases h2 : (l2.take (expected_header.length + 1)).get? n with
        | none => rfl
        | some v2 => rw [h1, h2] at hg; simp at hg
      | some v1 =>
        cases h2 : (l2.take (expected_header.length + 1)).get? n with
        | none => rw [h1, h2] at hg; simp at hg
        | some v2 =>
          rw [h1, h2] at hg
          simp only [Option.map_some', Option.some.injEq] at hg
          simp [hg]

theorem guardScan_congr : ∀ (sym : List Char) (l1 l2 : List (List Char)),
    l1.map pyRstrip = l2.map pyRstrip → guardScan sym l1 = guardScan sym l2 := by
  intro sym l1
  induction l1 with
  | nil =>
    intro l2 hmap
    cases l2 with
    | nil => rfl
    | cons b t => simp at hmap
  | cons a t1 ih =>
    intro l2 hmap
    cases l2 with
    | nil => simp at hmap
    | cons a2 t2 =>
      simp only [List.map_cons, List.cons.injEq] at hmap
      obtain ⟨hhead, htail⟩ := hmap
      cases t1 with
      | nil =>
        cases t2 with
        | nil => rfl
        | cons b2 r2 => simp at htail
      | cons b1 r1 =>
        cases t2 with
        | nil => simp at htail
        | cons b2 r2 =>
          have hb : pyRstrip b1 = pyRstrip b2 := by
            simp only [List.map_cons, List.cons.injEq] at htail
            exact htail.1
          simp only [guardScan]
          rw [hhead]
          by_cases ha : pyRstrip a2 = ifndefLine sym
          · rw [if_pos ha, if_pos ha, hb]
          · rw [if_neg ha, if_neg ha]
            exact ih (b2 :: r2) htail

theorem check_guards_congr (l1 l2 : List (List Char)) (sym : List Char)
    (h : l1.map pyRstrip = l2.map pyRstrip) :
    check_guards l1 sym = check_guards l2 sym := by
  unfold check_guards
  rw [guardScan_congr sym l1 l2 h]
  cases hscan : guardScan sym l2 with
  | none => rfl
  | some op =>
    have hlast : (l1.getLast?).map pyRstrip = (l2.getLast?).map pyRstrip := by
      rw [← List.getLast?_map pyRstrip l1, h, List.getLast?_map]
    cases h1 : l1.getLast? with
    | none =>
      cases h2 : l2.getLast? with
      | none => rfl
      | some v2 => rw [h1, h2] at hlast; simp at hlast
    | some v1 =>
      cases h2 : l2.getLast? with
      | none => rw [h1, h2] at hlast; simp at hlast
      | some v2 =>
        rw [h1, h2] at hlast
        simp only [Option.map_some', Option.some.injEq] at hlast
        simp [hlast]

theorem map_rstrip_appendAt (lines : List (List Char)) (j : Nat) (ws : List Char)
    (h : ∀ c ∈ ws, isSpaceChar c = true) :
    (appendAt lines j ws).map pyRstrip = lines.map pyRstrip := by
  induction lines generalizing j with
  | nil => rfl
  | cons l ls ih =>
    cases j with
    | zero => simp [appendAt, rstrip_append l ws h]
    | succ j => simp [appendAt, ih j]


/-- Claim C9: all line comparisons in the copyright-header check and the
guard check are insensitive to trailing whitespace: appending trailing
whitespace characters (spaces, tabs, carriage returns, ...) to any single
line of a file changes the result of neither `check_file` nor
`check_guards`; in particular the required blank line after the header
block may consist entirely of whitespace. -/
theorem claim_c9 (lines : List (List Char)) (j : Nat) (ws sym : List Char)
    (h : ∀ c ∈ ws, isSpaceChar c = true) :
    check_file (appendAt lines j ws) = check_file lines ∧
    check_guards (appendAt lines j ws) sym = check_guards lines sym :=
  ⟨check_file_congr _ _ (map_rstrip_appendAt lines j ws h),
   check_guards_congr _ _ sym (map_rstrip_appendAt lines j ws h)⟩

/-- Witness for C9: appending a space, a tab and a carriage return to the
blank line after a valid header leaves `check_file` at pass, and likewise
trailing whitespace on a guard line leaves `check_guards` unchanged. -/
theorem claim_c9_witness :
    check_file (appendAt (headerFileLines [] ++ [[]]) 16 [' ', '\t', '\r'])
      = check_file (headerFileLines [] ++ [[]]) ∧
    check_guards (appendAt (["#ifndef A_H", "#define A_H", "#endif  // A_H"].map
      String.toList) 0 [' ', '\t', '\r']) ("A_H".toList)
      = check_guards (["#ifndef A_H", "#define A_H", "#endif  // A_H"].map
      String.toList) ("A_H".toList) :=
  ⟨(claim_c9 (headerFileLines [] ++ [[]]) 16 [' ', '\t', '\r'] [] (by decide)).1,
   (claim_c9 (["#ifndef A_H", "#define A_H", "#endif  // A_H"].map String.toList)
     0 [' ', '\t', '\r'] ("A_H".toList) (by decide)).2⟩

/-! ## Lemmas about the `check_file` loop and header matching -/

theorem cfLoop_of_aux : ∀ (es bs : List (List Char)) (n : Nat),
    headerMatchesAux n es bs = true →
    cfLoop n es bs = (n + min es.length bs.length, true) := by
  intro es
  induction es with
  | nil => intro bs n _; simp [cfLoop]
  | cons e es ih =>
    intro bs n haux
    cases bs with
    | nil => simp [cfLoop]
    | cons b bs =>
      simp only [headerMatchesAux, Bool.and_eq_true] at haux
      obtain ⟨hline, hrest⟩ := haux
      have hrec := ih bs (n + 1) hrest
      simp only [cfLoop]
      by_cases hn : n = 1
      · rw [if_pos hn]
        unfold lineMatches at hline
        rw [if_pos hn] at hline
        rw [if_pos hline, hrec]
        simp only [List.length_cons]
        congr 1
        omega
      · rw [if_neg hn]
        unfold lineMatches at hline
        rw [if_neg hn] at hline
        have : pyRstrip e = pyRstrip b := of_decide_eq_true hline
        rw [if_pos this, hrec]
        simp only [List.length_cons]
        congr 1
        omega

theorem cfLoop_true : ∀ (es bs : List (List Char)) (n m : Nat),
    cfLoop n es bs = (m, true) → m = n + min es.length bs.length := by
  intro es
  induction es with
  | nil =>
    intro bs n m h
    simp only [cfLoop] at h
    simp only [Prod.mk.injEq] at h
    simp [← h.1]
  | cons e es ih =>
    intro bs n m h
    cases bs with
    | nil =>
      simp only [cfLoop, Prod.mk.injEq] at h
      simp [← h.1]
    | cons b bs =>
      simp only [cfLoop] at h
      by_cases hn : n = 1
      · rw [if_pos hn] at h
        by_cases hcp : copyright_line.isPrefixOf b
        · rw [if_pos hcp] at h
          have := ih bs (n + 1) m h
          simp only [List.length_cons]
          omega
        · rw [if_neg hcp] at h
          simp only [Prod.mk.injEq] at h
          exact absurd h.2 (by simp)
      · rw [if_neg hn] at h
        by_cases hab : pyRstrip e = pyRstrip b
        · rw [if_pos hab] at h
          have := ih bs (n + 1) m h
          simp only [List.length_cons]
          omega
        · rw [if_neg hab] at h
          simp only [Prod.mk.injEq] at h
          exact absurd h.2 (by simp)

theorem aux_take : ∀ (es bs : List (List Char)) (n m : Nat), es.length ≤ m →
    headerMatchesAux n es (bs.take m) = headerMatchesAux n es bs := by
  intro es
  induction es with
  | nil => intro bs n m _; rfl
  | cons e es ih =>
    intro bs n m hm
    cases bs with
    | nil => simp
    | cons b bs =>
      cases m with
      | zero => simp at hm
      | succ m =>
        simp only [List.take_succ_cons, headerMatchesAux]
        rw [ih bs (n + 1) m (by simpa using hm)]

theorem aux_append : ∀ (es bs extra : List (List Char)) (n : Nat),
    es.length ≤ bs.length →
    headerMatchesAux n es (bs ++ extra) = headerMatchesAux n es bs := by
  intro es
  induction es with
  | nil => intro bs extra n _; rfl
  | cons e es ih =>
    intro bs extra n hlen
    cases bs with
    | nil => simp at hlen
    | cons b bs =>
      simp only [List.cons_append, headerMatchesAux]
      exact congrArg (fun x => lineMatches n e b && x)
        (ih bs extra (n + 1) (by simpa using hlen))

theorem expected_header_length : expected_header.length = 16 := by rfl

theorem check_file_match_short (lines : List (List Char))
    (hlen : lines.length ≤ 16) (hm : headerMatches lines = true) :
    check_file lines = none := by
  unfold check_file
  have htake : lines.take (expected_header.length + 1) = lines :=
    List.take_of_length_le (by rw [expected_header_length]; omega)
  rw [htake]
  rw [cfLoop_of_aux expected_header lines 0 hm]
  have hmin : 0 + min expected_header.length lines.length = lines.length := by
    rw [expected_header_length]; omega
  rw [hmin]
  simp [List.get?_eq_none.mpr (Nat.le_refl lines.length)]

theorem check_file_short_not_true (lines : List (List Char))
    (hlen : lines.length < 17) : check_file lines ≠ some true := by
  unfold check_file
  have htake : lines.take (expected_header.length + 1) = lines :=
    List.take_of_length_le (by rw [expected_header_length]; omega)
  rw [htake]
  cases hcf : cfLoop 0 expected_header lines with
  | mk n g =>
    cases g with
    | false => simp
    | true =>
      have hn : n = lines.length := by
        have := cfLoop_true expected_header lines 0 n hcf
        rw [expected_header_length] at this
        omega
      rw [hn]
      simp [List.get?_eq_none.mpr (Nat.le_refl lines.length)]

theorem check_file_match_nonblank (lines : List (List Char)) (next : List Char)
    (hm : headerMatches lines = true) (h16 : lines.get? 16 = some next)
    (hnb : pyRstrip next ≠ []) : check_file lines = some false := by
  have hlen : 16 < lines.length := by
    rcases List.get?_eq_some.mp h16 with ⟨hlt, _⟩
    exact hlt
  unfold check_file
  have haux : headerMatchesAux 0 expected_header
      (lines.take (expected_header.length + 1)) = true := by
    rw [aux_take expected_header lines 0 _ (by rw [expected_header_length]; omega)]
    exact hm
  rw [cfLoop_of_aux expected_header _ 0 haux]
  have hlentake : (lines.take (expected_header.length + 1)).length = 17 := by
    rw [List.length_take, expected_header_length]
    omega
  have hmin : 0 + min expected_header.length
      (lines.take (expected_header.length + 1)).length = 16 := by
    simp only [expected_header_length, List.length_take]
    omega
  have hget : (lines.take (expected_header.length + 1))[16]? = some next := by
    rw [← List.get?_eq_getElem?, List.get?_take (by rw [expected_header_length]; omega)]
    exact h16
  rw [hmin]
  simp [hget, hnb]

theorem aux_refl : ∀ (t : List (List Char)) (n : Nat), 2 ≤ n →
    headerMatchesAux n t t = true := by
  intro t
  induction t with
  | nil => intro n _; rfl
  | cons e t ih =>
    intro n hn
    simp only [headerMatchesAux, Bool.and_eq_true]
    constructor
    · simp [lineMatches, show n ≠ 1 by omega]
    · exact ih (n + 1) (by omega)

theorem aux_set_copyright (a b : List Char) (t : List (List Char)) (suffix : List Char) :
    headerMatchesAux 0 (a :: b :: t) ((a :: b :: t).set 1 (copyright_line ++ suffix))
      = true := by
  show (lineMatches 0 a a &&
    (lineMatches 1 b (copyright_line ++ suffix) && headerMatchesAux 2 t t)) = true
  simp only [Bool.and_eq_true]
  refine ⟨?_, ?_, ?_⟩
  · simp [lineMatches]
  · unfold lineMatches
    rw [if_pos rfl]
    exact List.isPrefixOf_iff_prefix.mpr ( List.prefix_append _ _)
  · exact aux_refl t 2 (by omega)

theorem aux_headerFileLines (suffix : List Char) :
    headerMatchesAux 0 expected_header (headerFileLines suffix) = true := by
  have hshape : expected_header =
      ("/* SCL --- Secure Computation Library".toList) ::
      (" * ---- THIS LINE IS IGNORED ----".toList) :: expected_header.drop 2 := by rfl
  unfold headerFileLines
  rw [hshape]
  exact aux_set_copyright _ _ _ suffix

theorem check_file_headerFileLines (suffix blank : List Char)
    (rest : List (List Char)) (hb : pyRstrip blank = []) :
    check_file (headerFileLines suffix ++ blank :: rest) = some true := by
  have hA : (headerFileLines suffix).length = 16 := by
    simp [headerFileLines, List.length_set, expected_header_length]
  unfold check_file
  have htake : (headerFileLines suffix ++ blank :: rest).take
      (expected_header.length + 1) = headerFileLines suffix ++ [blank] := by
    rw [expected_header_length, List.take_append_eq_append_take,
      List.take_of_length_le (by omega), hA]
    simp
  rw [htake]
  have haux : headerMatchesAux 0 expected_header
      (headerFileLines suffix ++ [blank]) = true := by
    rw [aux_append expected_header (headerFileLines suffix) [blank] 0
      (by rw [hA, expected_header_length])]
    exact aux_headerFileLines suffix
  rw [cfLoop_of_aux _ _ 0 haux]
  have hlen2 : (headerFileLines suffix ++ [blank]).length = 17 := by simp [hA]
  have hmin : 0 + min expected_header.length
      (headerFileLines suffix ++ [blank]).length = 16 := by
    rw [expected_header_length, hlen2]
    omega
  rw [hmin]
  have hget : (headerFileLines suffix ++ [blank])[16]? = some blank := by
    rw [← List.get?_eq_getElem?, List.get?_append_right (by omega), hA]
    rfl
  simp [hget, hb]

/-- Claim C2 (corrected): a candidate file passes `check_file` when its
sixteen leading lines are the template header with the copyright line being
`copyright_line` (that is, ` * Copyright (C) 2023` — the fixed prefix
includes the year 2023) followed by an arbitrary suffix, and the line after
the header block rstrips to empty.  A year other than 2023 is not accepted:
the prefix match is against the whole constant including the year. -/
theorem claim_c2_theorem (suffix blank : List Char) (rest : List (List Char))
    (hb : pyRstrip blank = []) :
    check_file (headerFileLines suffix ++ blank :: rest) = some true :=
  check_file_headerFileLines suffix blank rest hb

/-- Counterexample to C2 as stated: a file whose content exactly matches the
template with the valid year 2022 in the copyright line, followed by a blank
line, is rejected by `check_file` — the claim asserts any valid year is
accepted, but the code prefix-matches against ` * Copyright (C) 2023`. -/
theorem claim_c2_counterexample :
    check_file (expected_header.set 1 ((" * Copyright (C) 2022").toList) ++ [[]])
      = some false := by decide

/-- Witness for C2 (amended): a concrete file with copyright line
` * Copyright (C) 2023 Anders Dalskov`, the blank separator line, and one
content line passes. -/
theorem claim_c2_witness :
    check_file (headerFileLines ((" Anders Dalskov").toList) ++
      ([] : List Char) :: [("int main();").toList]) = some true :=
  claim_c2_theorem ((" Anders Dalskov").toList) [] [("int main();").toList] rfl

theorem cfLoop_false_of_aux : ∀ (es bs : List (List Char)) (n : Nat),
    headerMatchesAux n es bs = false → (cfLoop n es bs).2 = false := by
  intro es
  induction es with
  | nil =>
    intro bs n haux
    exact absurd haux (by simp [headerMatchesAux])
  | cons e es ih =>
    intro bs n haux
    cases bs with
    | nil => exact absurd haux (by simp [headerMatchesAux])
    | cons b bs =>
      simp only [headerMatchesAux, Bool.and_eq_false_iff] at haux
      simp only [cfLoop]
      by_cases hn : n = 1
      · rw [if_pos hn]
        by_cases hcp : copyright_line.isPrefixOf b
        · rw [if_pos hcp]
          rcases haux with hline | hrest
          · unfold lineMatches at hline
            rw [if_pos hn] at hline
            rw [hcp] at hline
            exact absurd hline (by simp)
          · exact ih bs (n + 1) hrest
        · rw [if_neg hcp]
      · rw [if_neg hn]
        by_cases hab : pyRstrip e = pyRstrip b
        · rw [if_pos hab]
          rcases haux with hline | hrest
          · unfold lineMatches at hline
            rw [if_neg hn] at hline
            rw [decide_eq_true hab] at hline
            exact absurd hline (by simp)
          · exact ih bs (n + 1) hrest
        · rw [if_neg hab]

theorem check_file_mismatch (lines : List (List Char))
    (hm : headerMatches lines = false) : check_file lines = some false := by
  unfold check_file
  have haux : headerMatchesAux 0 expected_header
      (lines.take (expected_header.length + 1)) = false := by
    rw [aux_take expected_header lines 0 _ (by rw [expected_header_length]; omega)]
    exact hm
  have hfalse := cfLoop_false_of_aux expected_header
    (lines.take (expected_header.length + 1)) 0 haux
  cases hcf : cfLoop 0 expected_header (lines.take (expected_header.length + 1)) with
  | mk m g =>
    rw [hcf] at hfalse
    simp only at hfalse
    rw [hfalse]

/-- Claim C4 (corrected): a candidate file with fewer than seventeen lines
(the sixteen header lines plus the required blank line) never passes
`check_file`; when all of its lines match the corresponding template lines —
in particular for the zero-length file — the reference behaviour raises an
IndexError (modelled `none`) instead of returning a fail result; and when
some present line mismatches its template line, the short-circuited `and`
avoids the indexing and the check returns the ordinary fail result
`some false`, it does not raise. -/
theorem claim_c4 :
    (∀ lines : List (List Char), lines.length < 17 → check_file lines ≠ some true) ∧
    (∀ lines : List (List Char), lines.length < 17 → headerMatches lines = true →
      check_file lines = none) ∧
    (∀ lines : List (List Char), lines.length < 17 → headerMatches lines = false →
      check_file lines = some false) :=
  ⟨fun lines h => check_file_short_not_true lines h,
   fun lines h hm => check_file_match_short lines (by omega) hm,
   fun lines _ hm => check_file_mismatch lines hm⟩

/-- Counterexample to C4 as stated: the one-line file `hello` has fewer
lines than the header plus blank line, yet `check_file` returns the ordinary
fail result `some false` — it does not raise an indexing fault, contrary to
the claim that iteration runs out and an indexing fault is raised for every
such file. -/
theorem claim_c4_counterexample : check_file [("hello").toList] = some false := by
  decide

/-- Witness for C4 (amended): the one-line file `hi` does not pass, the
zero-length file raises (result `none`), and the mismatching one-line file
`bad line` fails cleanly with `some false`. -/
theorem claim_c4_witness :
    check_file [("hi").toList] ≠ some true ∧
    check_file ([] : List (List Char)) = none ∧
    check_file [("bad line").toList] = some false :=
  ⟨claim_c4.1 [("hi").toList] (by decide),
   claim_c4.2.1 [] (by decide) (by decide),
   claim_c4.2.2 [("bad line").toList] (by decide) (by decide)⟩

/-- Claim C6 (corrected): a candidate file whose leading lines match the
template header block and that is missing the blank line after the header
fails: if a non-blank seventeenth line follows the header, `check_file`
returns `some false`; but if the file ends immediately after the sixteen
header lines, the reference behaviour instead raises an IndexError
(modelled `none`) rather than returning a fail result. -/
theorem claim_c6 :
    (∀ (lines : List (List Char)) (next : List Char), headerMatches lines = true →
      lines.get? 16 = some next → pyRstrip next ≠ [] → check_file lines = some false) ∧
    (∀ lines : List (List Char), lines.length = 16 → headerMatches lines = true →
      check_file lines = none) :=
  ⟨fun lines next hm h16 hnb => check_file_match_nonblank lines next hm h16 hnb,
   fun lines hl hm => check_file_match_short lines (by omega) hm⟩

/-- Counterexample to C6 as stated: the sixteen-line file that is exactly the
template header (with copyright line ` * Copyright (C) 2023`) and ends
immediately after the header block makes `check_file` raise (result `none`),
not return a fail result as the claim asserts for every such file. -/
theorem claim_c6_counterexample :
    check_file (expected_header.set 1 copyright_line) = none := by decide

/-- Witness for C6 (amended): a header followed by the non-blank line
`int x;` fails with `some false`; a bare header raises. -/
theorem claim_c6_witness :
    check_file (headerFileLines [] ++ [("int x;").toList]) = some false ∧
    check_file (headerFileLines ((" Anon").toList)) = none :=
  ⟨claim_c6.1 _ (("int x;").toList) (by decide) (by decide) (by decide),
   claim_c6.2 _ (by decide) (by decide)⟩

/-! ## Lemmas about the guard scan -/

theorem ite_tf_eq_true (P : Prop) [Decidable P] :
    ((if P then true else false) = true) ↔ P := by
  by_cases h : P <;> simp [h]

theorem guardScan_eq_none_iff (sym : List Char) (lines : List (List Char)) :
    guardScan sym lines = none ↔
    ∀ (j : Nat) (lj : List Char), j + 1 < lines.length → lines.get? j = some lj →
      pyRstrip lj ≠ ifndefLine sym := by
  induction lines with
  | nil => simp [guardScan]
  | cons a t ih =>
    cases t with
    | nil =>
      constructor
      · intro _ j lj hj hget
        simp at hj
      · intro _
        rfl
    | cons b r =>
      by_cases ha : pyRstrip a = ifndefLine sym
      · constructor
        · intro h
          exact absurd h (by simp [guardScan, ha])
        · intro hall
          exact absurd ha (hall 0 a (by simp) rfl)
      · have heq : guardScan sym (a :: b :: r) = guardScan sym (b :: r) := by
          simp only [guardScan]
          rw [if_neg ha]
        rw [heq, ih]
        constructor
        · intro hb j lj hj hget
          cases j with
          | zero =>
            simp only [List.get?_cons_zero, Option.some.injEq] at hget
            rw [← hget]
            exact ha
          | succ j =>
            rw [List.get?_cons_succ] at hget
            refine hb j lj ?_ hget
            simp only [List.length_cons] at hj ⊢
            omega
        · intro hA j lj hj hget
          refine hA (j + 1) lj ?_ (by rw [List.get?_cons_succ]; exact hget)
          simp only [List.length_cons] at hj ⊢
          omega

theorem guardScan_eq_some_iff (sym : List Char) (lines : List (List Char)) (o : Bool) :
    guardScan sym lines = some o ↔
    ∃ i li li1, lines.get? i = some li ∧ lines.get? (i + 1) = some li1 ∧
      (∀ (j : Nat) (lj : List Char), j < i → lines.get? j = some lj →
        pyRstrip lj ≠ ifndefLine sym) ∧
      pyRstrip li = ifndefLine sym ∧
      o = (if pyRstrip li1 = defineLine sym then true else false) := by
  induction lines generalizing o with
  | nil =>
    constructor
    · intro h
      exact absurd h (by simp [guardScan])
    · rintro ⟨i, li, li1, h1, _⟩
      simp at h1
  | cons a t ih =>
    cases t with
    | nil =>
      constructor
      · intro h
        exact absurd h (by simp [guardScan])
      · rintro ⟨i, li, li1, h1, h2, _⟩
        rw [List.get?_cons_succ] at h2
        simp at h2
    | cons b r =>
      by_cases ha : pyRstrip a = ifndefLine sym
      · have heq : guardScan sym (a :: b :: r)
            = some (if pyRstrip b = defineLine sym then true else false) := by
          simp only [guardScan]
          rw [if_pos ha]
        rw [heq]
        constructor
        · intro h
          injection h with h
          refine ⟨0, a, b, rfl, rfl, ?_, ha, h.symm⟩
          intro j lj hj _
          exact absurd hj (Nat.not_lt_zero j)
        · rintro ⟨i, li, li1, h1, h2, hfirst, hifn, ho⟩
          cases i with
          | zero =>
            simp only [List.get?_cons_succ, List.get?_cons_zero,
              Option.some.injEq] at h1 h2
            subst h1
            subst h2
            rw [ho]
          | succ i =>
            exact absurd ha (hfirst 0 a (Nat.succ_pos i) rfl)
      · have heq : guardScan sym (a :: b :: r) = guardScan sym (b :: r) := by
          simp only [guardScan]
          rw [if_neg ha]
        rw [heq, ih]
        constructor
        · rintro ⟨i, li, li1, h1, h2, hfirst, hifn, ho⟩
          refine ⟨i + 1, li, li1, ?_, ?_, ?_, hifn, ho⟩
          · rw [List.get?_cons_succ]
            exact h1
          · rw [List.get?_cons_succ]
            exact h2
          · intro j lj hj hget
            cases j with
            | zero =>
              simp only [List.get?_cons_zero, Option.some.injEq] at hget
              rw [← hget]
              exact ha
            | succ j =>
              rw [List.get?_cons_succ] at hget
              exact hfirst j lj (by omega) hget
        · rintro ⟨i, li, li1, h1, h2, hfirst, hifn, ho⟩
          cases i with
          | zero =>
            simp only [List.get?_cons_zero, Option.some.injEq] at h1
            subst h1
            exact absurd hifn ha
          | succ i =>
            rw [List.get?_cons_succ] at h1 h2
            refine ⟨i, li, li1, h1, h2, ?_, hifn, ho⟩
            intro j lj hj hget
            exact hfirst (j + 1) lj (by omega) (by rw [List.get?_cons_succ]; exact hget)

theorem check_guards_some_true_iff (lines : List (List Char)) (sym : List Char) :
    check_guards lines sym = some true ↔
    guardScan sym lines = some true ∧
    ∃ ll, lines.getLast? = some ll ∧ pyRstrip ll = endifLine sym := by
  unfold check_guards
  cases hscan : guardScan sym lines with
  | none => simp
  | some op =>
    cases hlast : lines.getLast? with
    | none => simp
    | some ll =>
      simp [Bool.and_eq_true, ite_tf_eq_true]

/-- Claim C1 (corrected): for a header file with path `relpath` relative to
its root directory, with guard symbol `symOf relpath` (slashes and dots
replaced by underscores, upper-cased), `check_guards` passes exactly when
the FIRST line (among indices `0 .. len - 2`) rstripping to `#ifndef SYM`
exists and is immediately followed by a line rstripping to `#define SYM`,
and the file's last line rstrips to `#endif  // SYM` (two spaces before the
comment); all comparisons are exact and case-sensitive.  The claim's
original wording — that it suffices for the file to CONTAIN such an
adjacent pair anywhere — is refuted by `claim_c1_counterexample`. -/
theorem claim_c1_theorem (lines : List (List Char)) (relpath : List Char) :
    check_guards lines (symOf relpath) = some true ↔
    ∃ i li li1 ll, lines.get? i = some li ∧ lines.get? (i + 1) = some li1 ∧
      (∀ (j : Nat) (lj : List Char), j < i → lines.get? j = some lj →
        pyRstrip lj ≠ ifndefLine (symOf relpath)) ∧
      pyRstrip li = ifndefLine (symOf relpath) ∧
      pyRstrip li1 = defineLine (symOf relpath) ∧
      lines.getLast? = some ll ∧ pyRstrip ll = endifLine (symOf relpath) := by
  rw [check_guards_some_true_iff, guardScan_eq_some_iff]
  constructor
  · rintro ⟨⟨i, li, li1, h1, h2, hfirst, hifn, ho⟩, ⟨ll, hll, hend⟩⟩
    have hdef : pyRstrip li1 = defineLine (symOf relpath) := by
      by_contra hcon
      rw [if_neg hcon] at ho
      exact Bool.true_eq_false.mp ho
    exact ⟨i, li, li1, ll, h1, h2, hfirst, hifn, hdef, hll, hend⟩
  · rintro ⟨i, li, li1, ll, h1, h2, hfirst, hifn, hdef, hll, hend⟩
    exact ⟨⟨i, li, li1, h1, h2, hfirst, hifn, by rw [if_pos hdef]⟩, ⟨ll, hll, hend⟩⟩

/-- Counterexample to C1 as stated: a file for path `scl/util.h` that
contains a correct adjacent `#ifndef SCL_UTIL_H` / `#define SCL_UTIL_H` pair
(at lines 2 and 3) and ends with `#endif  // SCL_UTIL_H` — so the claim's
pass condition holds — but whose FIRST `#ifndef SCL_UTIL_H` line (line 0) is
followed by a different line, so `check_guards` fails. -/
theorem claim_c1_counterexample :
    guardSpecCond (["#ifndef SCL_UTIL_H", "int bad;", "#ifndef SCL_UTIL_H",
        "#define SCL_UTIL_H", "#endif  // SCL_UTIL_H"].map String.toList)
      (symOf ("scl/util.h".toList)) ∧
    check_guards (["#ifndef SCL_UTIL_H", "int bad;", "#ifndef SCL_UTIL_H",
        "#define SCL_UTIL_H", "#endif  // SCL_UTIL_H"].map String.toList)
      (symOf ("scl/util.h".toList)) = some false := by
  refine ⟨⟨⟨2, by decide, by decide, by decide⟩,
    ⟨("#endif  // SCL_UTIL_H").toList, by decide, by decide⟩⟩, by decide⟩

/-- Claim C7: for every header file containing no line rstripping to
`#ifndef SYM` — including the empty file — `check_guards` returns an
ordinary fail result (`some false`) without raising an exception. -/
theorem claim_c7 (lines : List (List Char)) (sym : List Char)
    (h : ∀ l ∈ lines, pyRstrip l ≠ ifndefLine sym) :
    check_guards lines sym = some false := by
  have hs : guardScan sym lines = none :=
    (guardScan_eq_none_iff sym lines).mpr (fun j lj _ hget => h lj (List.get?_mem hget))
  unfold check_guards
  rw [hs]

/-- Witness for C7: the empty file fails cleanly. -/
theorem claim_c7_witness :
    check_guards ([] : List (List Char)) ("SCL_MATH_FP_H".toList) = some false :=
  claim_c7 [] ("SCL_MATH_FP_H".toList) (by intro l hl; simp at hl)

/-- Claim C10: the guard check considers only the FIRST line rstripping to
`#ifndef SYM`, and only among indices `0 .. len - 2`: (1) if the line after
that first occurrence does not rstrip to `#define SYM`, `check_guards`
returns fail even when a correct adjacent pair occurs later in the file; and
(2) the last line is never a candidate for the opening guard: when no line
at an index `j` with `j + 1 < len` matches, the check fails regardless of
the last line's content. -/
theorem claim_c10 :
    (∀ (lines : List (List Char)) (sym : List Char) (i : Nat) (li li1 : List Char),
      lines.get? i = some li → lines.get? (i + 1) = some li1 →
      (∀ (j : Nat) (lj : List Char), j < i → lines.get? j = some lj →
        pyRstrip lj ≠ ifndefLine sym) →
      pyRstrip li = ifndefLine sym → pyRstrip li1 ≠ defineLine sym →
      (∃ k lk lk1, i < k ∧ lines.get? k = some lk ∧ lines.get? (k + 1) = some lk1 ∧
        pyRstrip lk = ifndefLine sym ∧ pyRstrip lk1 = defineLine sym) →
      check_guards lines sym = some false) ∧
    (∀ (lines : List (List Char)) (sym : List Char),
      (∀ (j : Nat) (lj : List Char), j + 1 < lines.length → lines.get? j = some lj →
        pyRstrip lj ≠ ifndefLine sym) →
      check_guards lines sym = some false) := by
  constructor
  · intro lines sym i li li1 h1 h2 hfirst hifn hdef _
    have hscan : guardScan sym lines = some false := by
      rw [guardScan_eq_some_iff]
      exact ⟨i, li, li1, h1, h2, hfirst, hifn, by rw [if_neg hdef]⟩
    unfold check_guards
    rw [hscan]
    obtain ⟨ll, hll⟩ : ∃ ll, lines.getLast? = some ll := by
      cases hl : lines.getLast? with
      | none =>
        rw [List.getLast?_eq_none_iff] at hl
        subst hl
        simp at h1
      | some ll => exact ⟨ll, rfl⟩
    rw [hll]
    simp
  · intro lines sym h
    have hs : guardScan sym lines = none := (guardScan_eq_none_iff sym lines).mpr h
    unfold check_guards
    rw [hs]

/-- Witness for C10: (1) a file whose first `#ifndef SCL_X_H` is followed by
`junk` fails although a correct pair follows later; (2) a two-line file
whose only `#ifndef SCL_Y_H` is its last line fails (the last line is never
scanned as an opening candidate). -/
theorem claim_c10_witness :
    check_guards (["#ifndef SCL_X_H", "junk", "#ifndef SCL_X_H", "#define SCL_X_H",
      "#endif  // SCL_X_H"].map String.toList) ("SCL_X_H".toList) = some false ∧
    check_guards (["int a;", "#ifndef SCL_Y_H"].map String.toList)
      ("SCL_Y_H".toList) = some false := by
  constructor
  · exact claim_c10.1 _ ("SCL_X_H".toList) 0 (("#ifndef SCL_X_H").toList)
      (("junk").toList) rfl rfl
      (fun j lj hj _ => absurd hj (Nat.not_lt_zero j))
      (by decide) (by decide)
      ⟨2, ("#ifndef SCL_X_H").toList, ("#define SCL_X_H").toList,
        by omega, rfl, rfl, by decide, by decide⟩
  · refine claim_c10.2 _ ("SCL_Y_H".toList) ?_
    intro j lj hj hget
    have hj0 : j = 0 := by
      simp at hj
      omega
    subst hj0
    simp only [List.map_cons, List.get?_cons_zero, Option.some.injEq] at hget
    rw [← hget]
    decide

/-! ## Lemmas about the aggregation and the exit codes -/

theorem aggAll_go_none {α : Type} (check : α → Option Bool) :
    ∀ files : List α,
    files.foldl
      (fun acc f =>
        match acc, check f with
        | some g, some r => some (g && r)
        | _, _ => none)
      none = none := by
  intro files
  induction files with
  | nil => rfl
  | cons f fs ih =>
    rw [List.foldl_cons]
    have hstep : (match (none : Option Bool), check f with
        | some g, some r => some (g && r)
        | _, _ => none) = none := by
      cases check f <;> rfl
    rw [hstep]
    exact ih

theorem aggAll_go {α : Type} (check : α → Option Bool) :
    ∀ (files : List α) (a g : Bool),
    files.foldl
      (fun acc f =>
        match acc, check f with
        | some g, some r => some (g && r)
        | _, _ => none)
      (some a) = some g →
    (g = true ↔ (a = true ∧ ∀ f ∈ files, check f = some true)) := by
  intro files
  induction files with
  | nil =>
    intro a g h
    rw [List.foldl_nil] at h
    injection h with h
    simp [← h]
  | cons f fs ih =>
    intro a g h
    rw [List.foldl_cons] at h
    cases hcf : check f with
    | none =>
      have hstep : (match (some a), check f with
          | some g, some r => some (g && r)
          | _, _ => none) = none := by
        rw [hcf]
      rw [hstep, aggAll_go_none] at h
      exact absurd h (by simp)
    | some r =>
      have hstep : (match (some a), check f with
          | some g, some r => some (g && r)
          | _, _ => none) = some (a && r) := by
        rw [hcf]
      rw [hstep] at h
      rw [ih (a && r) g h]
      simp only [List.forall_mem_cons, hcf, Option.some.injEq, Bool.and_eq_true]
      tauto

theorem aggAll_eq_some {α : Type} (check : α → Option Bool) (files : List α)
    (g : Bool) (h : aggAll check files = some g) :
    (g = true ↔ ∀ f ∈ files, check f = some true) := by
  have := aggAll_go check files true g (by unfold aggAll at h; exact h)
  simpa using this

/-- Claim C5: each script exits 0 exactly when every individual per-file
(or per-threshold) check passed, per-file booleans being ANDed together:
when the copyright script completes without an exception its exit code is 0
iff every walked file passes `check_file`, and is 0 or 1; likewise the guard
script's exit code is 0 iff every file of both walked roots passes
`check_guards`; and the coverage script exits 0 iff both thresholds are
exceeded, else 1. -/
theorem claim_c5 :
    (∀ (files : List (List (List Char))) (c : Nat), copyrightExit files = some c →
      ((c = 0 ↔ ∀ f ∈ files, check_file f = some true) ∧ (c = 0 ∨ c = 1))) ∧
    (∀ (incl srcFiles : List (List (List Char) × List Char)) (c : Nat),
      guardsExit incl srcFiles = some c →
      ((c = 0 ↔ ((∀ p ∈ incl, check_guards p.1 p.2 = some true) ∧
        (∀ p ∈ srcFiles, check_guards p.1 p.2 = some true))) ∧ (c = 0 ∨ c = 1))) ∧
    (∀ (summary : List (List Char)) (b : Bool), coverageRunLines summary = some b →
      ((coverageExitLines summary = some 0 ↔ b = true) ∧
       (coverageExitLines summary = some 0 ∨ coverageExitLines summary = some 1))) := by
  refine ⟨?_, ?_, ?_⟩
  · intro files c h
    unfold copyrightExit at h
    cases hagg : aggAll check_file files with
    | none => rw [hagg] at h; exact absurd h (by simp)
    | some g =>
      rw [hagg] at h
      have hiff := aggAll_eq_some check_file files g hagg
      cases g with
      | true =>
        simp at h
        exact ⟨iff_of_true (by omega) (hiff.mp rfl), by omega⟩
      | false =>
        simp at h
        refine ⟨iff_of_false (by omega) ?_, by omega⟩
        intro hall
        exact absurd (hiff.mpr hall) (by simp)
  · intro incl srcFiles c h
    unfold guardsExit at h
    cases hinc : check_dir incl with
    | none => rw [hinc] at h; exact absurd h (by simp)
    | some gi =>
      rw [hinc] at h
      have hiffi := aggAll_eq_some _ incl gi (by unfold check_dir at hinc; exact hinc)
      cases gi with
      | false =>
        simp at h
        refine ⟨iff_of_false (by omega) ?_, by omega⟩
        intro hall
        exact absurd (hiffi.mpr hall.1) (by simp)
      | true =>
        cases hsrc : check_dir srcFiles with
        | none => rw [hsrc] at h; exact absurd h (by simp)
        | some gs =>
          rw [hsrc] at h
          have hiffs := aggAll_eq_some _ srcFiles gs
            (by unfold check_dir at hsrc; exact hsrc)
          cases gs with
          | true =>
            simp at h
            exact ⟨iff_of_true (by omega) ⟨hiffi.mp rfl, hiffs.mp rfl⟩, by omega⟩
          | false =>
            simp at h
            refine ⟨iff_of_false (by omega) ?_, by omega⟩
            intro hall
            exact absurd (hiffs.mpr hall.2) (by simp)
  · intro summary b h
    unfold coverageExitLines
    rw [h]
    cases b with
    | true => exact ⟨iff_of_true rfl rfl, Or.inl rfl⟩
    | false => exact ⟨iff_of_false (by simp) (by simp), Or.inr rfl⟩

/-- Witness for C5: a run over a single malformed one-line file exits 1,
and indeed not every file passed. -/
theorem claim_c5_witness :
    (((1 : Nat) = 0 ↔ ∀ f ∈ [[("hello world").toList]], check_file f = some true) ∧
     ((1 : Nat) = 0 ∨ (1 : Nat) = 1)) :=
  claim_c5.1 [[("hello world").toList]] 1 (by decide)

/-- Claim C3: when both percentages extract successfully, the coverage check
exits 0 exactly when the line percentage strictly exceeds `line_threshold`
(95.0) and the function percentage strictly exceeds `function_threshold`
(80.0); otherwise it exits 1.  Equality with a threshold does not pass. -/
theorem claim_c3 (summary : List (List Char)) (l2 l3 : List Char) (pl pf : ℚ)
    (h2 : summary.get? 2 = some l2) (h3 : summary.get? 3 = some l3)
    (hpl : extractPct l2 = some pl) (hpf : extractPct l3 = some pf) :
    ((coverageExitLines summary = some 0 ↔
      (line_threshold < pl ∧ function_threshold < pf)) ∧
     (coverageExitLines summary = some 0 ∨ coverageExitLines summary = some 1)) := by
  unfold coverageExitLines coverageRunLines coverageOf
  simp only [h2, h3, hpl, hpf]
  by_cases ha : line_threshold < pl <;> by_cases hb : function_threshold < pf <;>
    simp [ha, hb]

theorem extract_lines_964 :
    extractPct (("Lines: 96.4%").toList) = some (482 / 5 : ℚ) := by
  have h : extractPct (("Lines: 96.4%").toList)
      = some (digitsVal ['9', '6'] + digitVal '4' / 10) := rfl
  rw [h]
  norm_num [digitsVal, digitVal, List.foldl,
    show ('9'.toNat - 48 : Nat) = 9 from rfl, show ('6'.toNat - 48 : Nat) = 6 from rfl,
    show ('4'.toNat - 48 : Nat) = 4 from rfl]

theorem extract_functions_850 :
    extractPct (("Functions: 85.0%").toList) = some (85 : ℚ) := by
  have h : extractPct (("Functions: 85.0%").toList)
      = some (digitsVal ['8', '5'] + digitVal '0' / 10) := rfl
  rw [h]
  norm_num [digitsVal, digitVal, List.foldl,
    show ('8'.toNat - 48 : Nat) = 8 from rfl, show ('5'.toNat - 48 : Nat) = 5 from rfl,
    show ('0'.toNat - 48 : Nat) = 0 from rfl]

/-- Witness for C3: a report with `Lines: 96.4%` and `Functions: 85.0%`
(thresholds 95.0 / 80.0) passes with exit code 0; 96.4 = 482/5. -/
theorem claim_c3_witness :
    ((coverageExitLines (["Coverage summary", "--------", "Lines: 96.4%",
        "Functions: 85.0%"].map String.toList) = some 0 ↔
      (line_threshold < (482/5 : ℚ) ∧ function_threshold < (85 : ℚ))) ∧
     (coverageExitLines (["Coverage summary", "--------", "Lines: 96.4%",
        "Functions: 85.0%"].map String.toList) = some 0 ∨
      coverageExitLines (["Coverage summary", "--------", "Lines: 96.4%",
        "Functions: 85.0%"].map String.toList) = some 1)) :=
  claim_c3 _ (("Lines: 96.4%").toList) (("Functions: 85.0%").toList)
    (482 / 5) 85 rfl rfl extract_lines_964 extract_functions_850

/-- Claim C8: when the percentage pattern `[0-9]?[0-9][0-9].[0-9]%` matches
nothing on line index 2 or line index 3, or the report has fewer than 4
lines, the coverage script propagates an uncaught fault (modelled `none`)
instead of exiting cleanly; in particular a single-integer-digit percentage
such as `5.0%` does not match the pattern. -/
theorem claim_c8 :
    (∀ summary : List (List Char),
      (summary.length < 4 ∨
       (∃ l2, summary.get? 2 = some l2 ∧ findFirstMatch l2 = none) ∨
       (∃ l3, summary.get? 3 = some l3 ∧ findFirstMatch l3 = none)) →
      coverageRunLines summary = none) ∧
    findFirstMatch (("Lines: 5.0%").toList) = none := by
  constructor
  · intro summary h
    unfold coverageRunLines
    rcases h with hlen | ⟨l2, h2, hm2⟩ | ⟨l3, h3, hm3⟩
    · have hn3 : summary.get? 3 = none := List.get?_eq_none.mpr (by omega)
      rw [hn3]
      cases hg2 : summary.get? 2 <;> rfl
    · have he2 : extractPct l2 = none := by
        unfold extractPct
        rw [hm2]
        rfl
      rw [h2]
      cases hg3 : summary.get? 3 with
      | none => rfl
      | some lf =>
        show coverageOf l2 lf = none
        unfold coverageOf
        rw [he2]
    · have he3 : extractPct l3 = none := by
        unfold extractPct
        rw [hm3]
        rfl
      rw [h3]
      cases hg2 : summary.get? 2 with
      | none => rfl
      | some lf =>
        show coverageOf lf l3 = none
        unfold coverageOf
        rw [he3]
        cases extractPct lf <;> rfl
  · decide

/-- Witness for C8: a four-line report whose Lines percentage is `5.0%`
(below ten percent, single integer digit) makes the script raise. -/
theorem claim_c8_witness :
    coverageRunLines (["Coverage", "--------", "Lines: 5.0%",
      "Functions: 85.0%"].map String.toList) = none :=
  claim_c8.1 _ (Or.inr (Or.inl ⟨("Lines: 5.0%").toList, rfl, by decide⟩))

end SCL
